import Mathlib

/-!
Shallow embedding of the `bank` transfer-simulation tool (Go sources
`bank.go`, `util.go`, `main.go`).  Pure fragments of the code are
translated to Lean functions; the database is made explicit as a balance
map `Nat → Int` (shard account table) together with explicit traces of
the SQL effects a transaction issues.  Go `int` balances and amounts are
modelled by `Int` (no claim in scope exercises 64-bit overflow).
-/

namespace Bank

/-- One row of the `record` audit table, as inserted by
`execTransaction` in `bank.go` (columns `from_id, to_id, from_balance,
to_balance, amount, tso`). -/
structure TransferRecord where
  from_id : Nat
  to_id : Nat
  from_balance : Int
  to_balance : Int
  amount : Int
  tso : Nat
deriving Repr, DecidableEq

/-- Result of one run of the transfer-transaction body: the post
balances of the two touched accounts, whether the `UPDATE` statement was
executed, the audit row inserted (if any), and the error returned (the
commit result, since every earlier statement on the modelled path
succeeds). -/
structure TxnOutcome where
  fromBalance' : Int
  toBalance' : Int
  updated : Bool
  record : Option TransferRecord
  err : Option String
deriving Repr, DecidableEq

/-- Embedding of `BankCase.execTransaction` (`bank.go` lines 546-681)
given the snapshot returned by the locking read: `fromBalance` and
`toBalance` are the balances of accounts `fromId` and `toId` read under
`SELECT ... FOR UPDATE`, `tso` is the ordering token, and `commitRes` is
the result of `tx.Commit()`.  When `fromBalance >= amount` the `UPDATE`
sets the receiver to `toBalance + amount` and the sender to
`fromBalance - amount` and one audit row carrying the pre-transfer
snapshot is inserted; otherwise no statement is executed before commit. -/
def execTransaction (fromId toId : Nat) (amount fromBalance toBalance : Int)
    (tso : Nat) (commitRes : Option String) : TxnOutcome :=
  if fromBalance ≥ amount then
    { fromBalance' := fromBalance - amount
      toBalance' := toBalance + amount
      updated := true
      record := some { from_id := fromId, to_id := toId, from_balance := fromBalance,
                       to_balance := toBalance, amount := amount, tso := tso }
      err := commitRes }
  else
    { fromBalance' := fromBalance
      toBalance' := toBalance
      updated := false
      record := none
      err := commitRes }

/-- Effect of one committed `execTransaction` on a whole shard's balance
map.  Mirrors the generated `UPDATE accounts SET balance = CASE id WHEN
<to> THEN ... WHEN <from> THEN ... END WHERE id IN (from, to)`: the
`WHEN <to>` arm is tested first, all other rows keep their balance, and
in the insufficient-funds branch nothing changes. -/
def applyTransfer (bal : Nat → Int) (fromId toId : Nat) (amount : Int) : Nat → Int :=
  fun id =>
    if id = toId then (execTransaction fromId toId amount (bal fromId) (bal toId) 0 none).toBalance'
    else if id = fromId then (execTransaction fromId toId amount (bal fromId) (bal toId) 0 none).fromBalance'
    else bal id

/-- Balance sum of a shard with `n` accounts (ids `0 .. n-1`), the
quantity read by `verifyWithConn`'s `select sum(balance)`. -/
def shardSum (n : Nat) (bal : Nat → Int) : Int :=
  ∑ i in Finset.range n, bal i

/-- Serial execution of a list of transfers `(fromId, toId, amount)`
against a shard, each locking read observing the balances left by the
previous committed transfer (the serial schedule of `Execute`). -/
def execTransfers (bal : Nat → Int) : List (Nat × Nat × Int) → (Nat → Int)
  | [] => bal
  | (f, t, a) :: rest => execTransfers (applyTransfer bal f t a) rest

/-- Outcome of `tryDrop`'s probe of a shard's account table (`bank.go`
lines 429-457): either `show tables like 'accounts<index>'` returns no
row, or the table exists and `select count(*)` returns `count`. -/
inductive ProbeResult where
  | absent
  | present (count : Nat)
deriving Repr, DecidableEq

/-- What `tryDrop` did: its return value and which `DROP TABLE`
statements it executed. -/
structure TryDropResult where
  dropped : Bool
  droppedAccounts : Bool
  droppedRecord : Bool
deriving Repr, DecidableEq

/-- Embedding of `BankCase.tryDrop` (`bank.go` lines 429-457): an absent
table means "needs seeding" with no drop; a present table with exactly
`numAccounts` rows returns `false` with no drop; any other row count
drops both the shard's `accounts` table and the shared `record` table
and returns `true`. -/
def tryDrop (numAccounts : Nat) : ProbeResult → TryDropResult
  | ProbeResult.absent =>
      { dropped := true, droppedAccounts := false, droppedRecord := false }
  | ProbeResult.present count =>
      if count = numAccounts then
        { dropped := false, droppedAccounts := false, droppedRecord := false }
      else
        { dropped := true, droppedAccounts := true, droppedRecord := true }

/-- Observable actions taken by `initDB` for one shard, in order. -/
inductive InitAction where
  | dropAccountsTable
  | dropRecordTable
  | createAccountsTable
  | createRecordTable
  | seedBatch (startIndex : Nat)
  | startVerify
deriving Repr, DecidableEq

/-- Seeding batch size (`bank.go` line 199). -/
def batchSize : Nat := 100

/-- Batch start offsets pushed onto the seeding channel (`bank.go` lines
287-296): `i * batchSize` for `i < jobCount` where
`jobCount = NumAccounts / batchSize` (Go integer division). -/
def seedBatchStarts (numAccounts : Nat) : List Nat :=
  (List.range (numAccounts / batchSize)).map (fun i => i * batchSize)

/-- Account ids inserted by seeding: each batch inserts rows
`startIndex + i` for `i < batchSize`, all with balance 1000 (`bank.go`
lines 248-260). -/
def seededIds (numAccounts : Nat) : List Nat :=
  ((seedBatchStarts numAccounts).map
    (fun s => (List.range batchSize).map (fun j => s + j))).flatten

/-- Embedding of `BankCase.initDB` (`bank.go` lines 158-309) as the
ordered trace of its observable actions on one shard, given the probe
outcome: if `tryDrop` returns `false` it starts verification directly;
otherwise it runs the drops `tryDrop` performed, recreates both tables,
seeds all batches, and then starts verification. -/
def initDB (numAccounts : Nat) (probe : ProbeResult) : List InitAction :=
  let td := tryDrop numAccounts probe
  if td.dropped = false then [InitAction.startVerify]
  else
    (if td.droppedAccounts then [InitAction.dropAccountsTable] else [])
      ++ (if td.droppedRecord then [InitAction.dropRecordTable] else [])
      ++ [InitAction.createAccountsTable, InitAction.createRecordTable]
      ++ (seedBatchStarts numAccounts).map InitAction.seedBatch
      ++ [InitAction.startVerify]

/-- Result of `RunWithRetry`: `done res calls waits` means the function
returned `res` (`none` is Go `nil`) after `calls` calls of the operation
and `waits` completed backoff waits; `running` means the given fuel was
exhausted while the loop was still going (used to express unbounded
retrying). -/
inductive RetryResult (E : Type) where
  | done (res : Option E) (calls : Nat) (waits : Nat)
  | running (calls : Nat) (waits : Nat)
deriving Repr, DecidableEq

/-- Model of `errors.Trace` from juju/errors applied to a non-nil error:
it annotates the error with context. -/
def traceErr (e : String) : String := "trace: " ++ e

/-- Loop of `RunWithRetry` (`util.go` lines 79-96).  `tr` models
`errors.Trace` on a non-nil error, `f i` is the error returned by the
`i`-th call of the operation (`none` is success), `ctxDone i` says
whether the context-cancellation arm of the `select` wins during the
backoff after the `i`-th call.  `i` is the loop counter, `w` counts
completed waits, `last` is the current value of the `err` variable, and
`fuel` bounds how many iterations we unfold. -/
def runWithRetryLoop {E : Type} (tr : E → E) (retryCnt : Int) (f : Nat → Option E)
    (ctxDone : Nat → Bool) : Nat → Nat → Nat → Option E → RetryResult E
  | 0, i, w, _ => RetryResult.running i w
  | fuel + 1, i, w, last =>
    if retryCnt < 0 ∨ (i : Int) < retryCnt then
      match f i with
      | none => RetryResult.done none (i + 1) w
      | some e =>
        if ctxDone i then RetryResult.done none (i + 1) w
        else runWithRetryLoop tr retryCnt f ctxDone fuel (i + 1) (w + 1) (some e)
    else RetryResult.done (last.map tr) i w

/-- Embedding of `RunWithRetry` (`util.go` lines 79-96), starting the
loop at `i = 0` with the `err` variable holding Go's zero value `nil`. -/
def RunWithRetry {E : Type} (tr : E → E) (retryCnt : Int) (f : Nat → Option E)
    (ctxDone : Nat → Bool) (fuel : Nat) : RetryResult E :=
  runWithRetryLoop tr retryCnt f ctxDone fuel 0 0 none

/-- Final value of the `err` variable after `n` calls of an operation
whose `i`-th call returns `f i`: Go's zero value `nil` when the loop
body never ran, otherwise the error of the last call. -/
def lastErrVar {E : Type} (f : Nat → Option E) (n : Nat) : Option E :=
  if n = 0 then none else f (n - 1)

/-- Errors a seeding insert can produce. -/
inductive SQLError where
  | dupEntry
  | other (msg : String)
deriving Repr, DecidableEq

/-- Modelled from the spec: `IsErrDupEntry` is defined in `error.go`,
which is not among the provided sources (only its caller in `bank.go`
is).  Per the spec, duplicate-key failures are recognized and remapped
to success, so `IsErrDupEntry` holds exactly on a duplicate-entry
error. -/
def IsErrDupEntry : Option SQLError → Bool
  | some SQLError.dupEntry => true
  | _ => false

/-- Embedding of the `insertF` closure (`bank.go` lines 262-276): run
the batch insert (whose result on attempt `i` is `execRes i`) and remap
a duplicate-entry error to `nil`. -/
def insertF (execRes : Nat → Option SQLError) (i : Nat) : Option SQLError :=
  let err := execRes i
  if IsErrDupEntry err then none else err

/-- Outcome of one `verifyWithConn` run (`bank.go` lines 476-518), given
the result of the `select sum(balance)` query (`none` is a query error):
`err` is the returned error, `stoppedSet` says whether it stored 1 into
`c.stopped`, and `fatal` says whether it called `log.Fatalf` (process
abort). -/
structure VerifyOutcome where
  err : Option String
  stoppedSet : Bool
  fatal : Bool
deriving Repr, DecidableEq

/-- Embedding of `verifyWithConn`: a failed sum query is returned as an
error; a sum different from `NumAccounts * 1000` sets `stopped` and
aborts via `log.Fatalf`; a matching sum succeeds. -/
def verifyWithConn (numAccounts : Nat) (sumQuery : Option Int) : VerifyOutcome :=
  match sumQuery with
  | none => { err := some "select sum error", stoppedSet := false, fatal := false }
  | some total =>
    if total ≠ (numAccounts : Int) * 1000 then
      { err := none, stoppedSet := true, fatal := true }
    else
      { err := none, stoppedSet := false, fatal := false }

/-- State of the fast verification cadence in `startVerify` (`bank.go`
lines 327-345): `start` is the time of the last successful verification
(nanoseconds), `stopped` the process-wide flag. -/
structure WatchdogState where
  start : Nat
  stopped : Bool
deriving Repr, DecidableEq

/-- Embedding of `defaultVerifyTimeout = 6 * time.Hour` (`main.go` line
34), in nanoseconds. -/
def defaultVerifyTimeout : Nat := 21600000000000

/-- Embedding of one tick of the fast verification cadence (`bank.go`
lines 329-345) combined with `verifyWithConn`'s own behavior: a sum
mismatch sets `stopped` and aborts inside `verifyWithConn`; a verify
error trips the watchdog only when more than `defaultVerifyTimeout` has
elapsed since `start`; success resets `start` to `now`.  The returned
`Bool` says whether the process aborted on this tick. -/
def verifyTick (numAccounts : Nat) (st : WatchdogState) (now : Nat)
    (sumQuery : Option Int) : WatchdogState × Bool :=
  let o := verifyWithConn numAccounts sumQuery
  if o.fatal then ({ st with stopped := true }, true)
  else
    match o.err with
    | some _ =>
      if now - st.start > defaultVerifyTimeout then ({ st with stopped := true }, true)
      else (st, false)
    | none => ({ st with start := now }, false)

/-- Helper: summing a function changed at exactly two distinct points. -/
theorem sum_two_point_update (bal : Nat → Int) (f t : Nat) (u v : Int) (n : Nat)
    (hf : f ∈ Finset.range n) (ht : t ∈ Finset.range n) (hne : f ≠ t) :
    (∑ i in Finset.range n, (if i = t then v else if i = f then u else bal i))
      = v + u + ((∑ i in Finset.range n, bal i) - (bal t + bal f)) := by
  have hfun : (fun i => if i = t then v else if i = f then u else bal i)
      = Function.update (Function.update bal f u) t v := by
    funext i
    simp only [Function.update_apply]
  have hf' : f ∈ Finset.range n \ {t} := by
    simp only [Finset.mem_sdiff, Finset.mem_singleton]
    exact ⟨hf, hne⟩
  calc (∑ i in Finset.range n, (if i = t then v else if i = f then u else bal i))
      = ∑ i in Finset.range n, Function.update (Function.update bal f u) t v i := by
        rw [hfun]
    _ = v + ∑ i in Finset.range n \ {t}, Function.update bal f u i := by
        rw [Finset.sum_update_of_mem ht]
    _ = v + (u + ∑ i in (Finset.range n \ {t}) \ {f}, bal i) := by
        rw [Finset.sum_update_of_mem hf']
    _ = v + u + ((∑ i in Finset.range n, bal i) - (bal t + bal f)) := by
        have h1 : (∑ i in Finset.range n, bal i)
            = bal t + ∑ i in Finset.range n \ {t}, bal i := by
          have := Finset.sum_update_of_mem ht bal (bal t)
          rwa [Function.update_eq_self] at this
        have h2 : (∑ i in Finset.range n \ {t}, bal i)
            = bal f + ∑ i in (Finset.range n \ {t}) \ {f}, bal i := by
          have := Finset.sum_update_of_mem hf' bal (bal f)
          rwa [Function.update_eq_self] at this
        rw [h1, h2]; ring

/-- Helper: a single transfer between two distinct in-range accounts
leaves the shard sum unchanged, whichever branch runs. -/
theorem applyTransfer_shardSum (n : Nat) (bal : Nat → Int) (f t : Nat) (a : Int)
    (hf : f < n) (ht : t < n) (hne : f ≠ t) :
    shardSum n (applyTransfer bal f t a) = shardSum n bal := by
  have hf' : f ∈ Finset.range n := Finset.mem_range.mpr hf
  have ht' : t ∈ Finset.range n := Finset.mem_range.mpr ht
  unfold shardSum applyTransfer execTransaction
  by_cases hcase : bal f ≥ a
  · simp only [hcase, if_pos]
    rw [sum_two_point_update bal f t (bal f - a) (bal t + a) n hf' ht' hne]
    ring
  · simp only [hcase, if_neg, not_false_iff]
    rw [sum_two_point_update bal f t (bal f) (bal t) n hf' ht' hne]
    ring

/-- C1: for every transfer executed against a shard whose balances sum
to `NumAccounts * 1000`, the shard's balance sum after the transaction
(mutating branch or no-op) still equals `NumAccounts * 1000`. -/
theorem execTransaction_conserves_shardSum (n : Nat) (bal : Nat → Int) (f t : Nat)
    (a : Int) (hf : f < n) (ht : t < n) (hne : f ≠ t)
    (hsum : shardSum n bal = (n : Int) * 1000) :
    shardSum n (applyTransfer bal f t a) = (n : Int) * 1000 := by
  rw [applyTransfer_shardSum n bal f t a hf ht hne, hsum]

/-- Witness for C1 at a concrete shard of two accounts. -/
theorem execTransaction_conserves_shardSum_witness :
    shardSum 2 (applyTransfer (fun _ => 1000) 0 1 7) = (2 : Int) * 1000 :=
  execTransaction_conserves_shardSum 2 (fun _ => 1000) 0 1 7 (by decide) (by decide)
    (by decide) (by decide)

/-- C2: a transfer taking the mutating branch (`fromBalance >= amount`)
inserts exactly one audit record whose `from_balance`, `to_balance` and
`amount` equal the locking-read snapshot and the drawn amount, and the
update sets the post-transfer balances to `from_balance - amount` and
`to_balance + amount`. -/
theorem execTransaction_audit_record (fromId toId : Nat)
    (amount fromBalance toBalance : Int) (tso : Nat) (commitRes : Option String)
    (h : fromBalance ≥ amount) :
    (execTransaction fromId toId amount fromBalance toBalance tso commitRes).record
        = some { from_id := fromId, to_id := toId, from_balance := fromBalance,
                 to_balance := toBalance, amount := amount, tso := tso }
      ∧ (execTransaction fromId toId amount fromBalance toBalance tso commitRes).updated = true
      ∧ (execTransaction fromId toId amount fromBalance toBalance tso commitRes).fromBalance'
          = fromBalance - amount
      ∧ (execTransaction fromId toId amount fromBalance toBalance tso commitRes).toBalance'
          = toBalance + amount := by
  simp [execTransaction, h]

/-- Witness for C2 at a concrete mutating transfer. -/
theorem execTransaction_audit_record_witness :
    (execTransaction 3 7 50 1000 1000 42 none).record
        = some { from_id := 3, to_id := 7, from_balance := 1000,
                 to_balance := 1000, amount := 50, tso := 42 }
      ∧ (execTransaction 3 7 50 1000 1000 42 none).updated = true
      ∧ (execTransaction 3 7 50 1000 1000 42 none).fromBalance' = 1000 - 50
      ∧ (execTransaction 3 7 50 1000 1000 42 none).toBalance' = 1000 + 50 :=
  execTransaction_audit_record 3 7 50 1000 1000 42 none (by decide)

/-- C3: a transfer with `fromBalance < amount` executes no update,
inserts no audit record, leaves both balances unchanged, and still
reaches commit without returning an error. -/
theorem execTransaction_insufficient_funds_noop (fromId toId : Nat)
    (amount fromBalance toBalance : Int) (tso : Nat)
    (h : fromBalance < amount) :
    (execTransaction fromId toId amount fromBalance toBalance tso none).updated = false
      ∧ (execTransaction fromId toId amount fromBalance toBalance tso none).record = none
      ∧ (execTransaction fromId toId amount fromBalance toBalance tso none).fromBalance'
          = fromBalance
      ∧ (execTransaction fromId toId amount fromBalance toBalance tso none).toBalance'
          = toBalance
      ∧ (execTransaction fromId toId amount fromBalance toBalance tso none).err = none := by
  simp [execTransaction, not_le.mpr h]

/-- Witness for C3 at a concrete underfunded transfer. -/
theorem execTransaction_insufficient_funds_noop_witness :
    (execTransaction 3 7 50 10 1000 42 none).updated = false
      ∧ (execTransaction 3 7 50 10 1000 42 none).record = none
      ∧ (execTransaction 3 7 50 10 1000 42 none).fromBalance' = 10
      ∧ (execTransaction 3 7 50 10 1000 42 none).toBalance' = 1000
      ∧ (execTransaction 3 7 50 10 1000 42 none).err = none :=
  execTransaction_insufficient_funds_noop 3 7 50 10 1000 42 (by decide)

/-- C4: a shard whose account table exists with exactly `NumAccounts`
rows is not dropped (`tryDrop` returns `false`) and its initialization
performs no drop and no seeding insert, proceeding directly to starting
the verification cadences. -/
theorem initDB_resume_without_reseed (numAccounts : Nat) :
    (tryDrop numAccounts (ProbeResult.present numAccounts)).dropped = false
      ∧ initDB numAccounts (ProbeResult.present numAccounts)
          = [InitAction.startVerify] := by
  constructor
  · simp [tryDrop]
  · simp [initDB, tryDrop]

/-- C5, failing input: with `NumAccounts = 150` and a stale row count,
`initDB` drops both tables and recreates them, but seeds only
`(150 / 100) * 100 = 100` rows (ids `[0, 100)`), not 150 — the full
trace and the seeded-ids shortfall, evaluated at the failing input. -/
theorem initDB_seed_shortfall_at_150 :
    initDB 150 (ProbeResult.present 7)
        = [InitAction.dropAccountsTable, InitAction.dropRecordTable,
           InitAction.createAccountsTable, InitAction.createRecordTable,
           InitAction.seedBatch 0, InitAction.startVerify]
      ∧ seededIds 150 = List.range 100
      ∧ (seededIds 150).length = 100 := by
  refine ⟨by decide, by decide, by decide⟩

/-- Helper: with a nonnegative bound `N`, an always-failing operation
and no cancellation, the loop exits at `i = N` returning the traced
`err` variable, having performed one wait per failed call. -/
theorem runWithRetryLoop_bounded_fail {E : Type} (tr : E → E) (N : Nat)
    (f : Nat → Option E) (c : Nat → Bool)
    (hf : ∀ i, (f i).isSome) (hc : ∀ i, c i = false) :
    ∀ (fuel i w : Nat) (last : Option E), i ≤ N → N - i < fuel →
      runWithRetryLoop tr (N : Int) f c fuel i w last
        = RetryResult.done (Option.map tr (if i = N then last else f (N - 1))) N (w + (N - i)) := by
  intro fuel
  induction fuel with
  | zero => intro i w last _ h; omega
  | succ fuel ih =>
    intro i w last hi hfuel
    by_cases hiN : i = N
    · have hcond : ¬(((N : Nat) : Int) < 0 ∨ (i : Int) < ((N : Nat) : Int)) := by
        push_neg
        refine ⟨by exact_mod_cast Nat.zero_le N, ?_⟩
        exact_mod_cast le_of_eq hiN.symm
      simp only [runWithRetryLoop]
      rw [if_neg hcond, if_pos hiN, hiN, Nat.sub_self, Nat.add_zero]
    · have hilt : i < N := lt_of_le_of_ne hi hiN
      have hcond : ((N : Int) < 0 ∨ (i : Int) < (N : Int)) := Or.inr (by exact_mod_cast hilt)
      obtain ⟨e, he⟩ := Option.isSome_iff_exists.mp (hf i)
      have step : runWithRetryLoop tr (N : Int) f c (fuel + 1) i w last
          = runWithRetryLoop tr (N : Int) f c fuel (i + 1) (w + 1) (some e) := by
        simp only [runWithRetryLoop, hcond, if_pos, he, hc i, if_neg, Bool.false_eq_true,
          not_false_iff]
      rw [step, ih (i + 1) (w + 1) (some e) hilt (by omega)]
      have harg : (if i + 1 = N then some e else f (N - 1)) = f (N - 1) := by
        by_cases h1 : i + 1 = N
        · rw [if_pos h1, ← he]
          congr 1
          omega
        · rw [if_neg h1]
      have hwait : (w + 1) + (N - (i + 1)) = w + (N - i) := by omega
      rw [harg, hwait, if_neg hiN]

/-- Helper: with a negative bound, an always-failing operation and no
cancellation, the loop is still running whenever the fuel runs out. -/
theorem runWithRetryLoop_neg_fail {E : Type} (tr : E → E) (b : Int)
    (f : Nat → Option E) (c : Nat → Bool) (hb : b < 0)
    (hf : ∀ i, (f i).isSome) (hc : ∀ i, c i = false) :
    ∀ (fuel i w : Nat) (last : Option E),
      runWithRetryLoop tr b f c fuel i w last = RetryResult.running (i + fuel) (w + fuel) := by
  intro fuel
  induction fuel with
  | zero => intro i w last; simp [runWithRetryLoop]
  | succ fuel ih =>
    intro i w last
    obtain ⟨e, he⟩ := Option.isSome_iff_exists.mp (hf i)
    have step : runWithRetryLoop tr b f c (fuel + 1) i w last
        = runWithRetryLoop tr b f c fuel (i + 1) (w + 1) (some e) := by
      simp only [runWithRetryLoop, Or.inl hb, if_pos, he, hc i, Bool.false_eq_true,
        if_neg, not_false_iff]
    rw [step, ih]
    congr 1 <;> omega

/-- Helper: if the loop condition always holds (negative bound), calls
`0 .. k-1` fail without cancellation, and call `k` succeeds, the loop
returns `nil` after `k + 1` calls and `k` waits. -/
theorem runWithRetryLoop_success_at {E : Type} (tr : E → E) (b : Int)
    (f : Nat → Option E) (c : Nat → Bool) (k : Nat) (hb : b < 0)
    (hf : ∀ i, i < k → (f i).isSome) (hk : f k = none)
    (hc : ∀ i, i < k → c i = false) :
    ∀ (fuel i w : Nat) (last : Option E), i ≤ k → k - i < fuel →
      runWithRetryLoop tr b f c fuel i w last
        = RetryResult.done none (k + 1) (w + (k - i)) := by
  intro fuel
  induction fuel with
  | zero => intro i w last _ h; omega
  | succ fuel ih =>
    intro i w last hi hfuel
    by_cases hik : i = k
    · subst hik
      simp only [runWithRetryLoop, Or.inl hb, if_pos, hk]
      congr 1
      omega
    · have hilt : i < k := lt_of_le_of_ne hi hik
      obtain ⟨e, he⟩ := Option.isSome_iff_exists.mp (hf i hilt)
      have step : runWithRetryLoop tr b f c (fuel + 1) i w last
          = runWithRetryLoop tr b f c fuel (i + 1) (w + 1) (some e) := by
        simp only [runWithRetryLoop, Or.inl hb, if_pos, he, hc i hilt, Bool.false_eq_true,
          if_neg, not_false_iff]
      rw [step, ih (i + 1) (w + 1) (some e) hilt (by omega)]
      congr 1
      omega

/-- Helper: if the loop condition always holds (negative bound), calls
`0 .. k` fail, the waits before `k` are uninterrupted, and cancellation
wins the select during the backoff after call `k`, the loop returns
`nil` after `k + 1` calls and `k` completed waits. -/
theorem runWithRetryLoop_cancelled_at {E : Type} (tr : E → E) (b : Int)
    (f : Nat → Option E) (c : Nat → Bool) (k : Nat) (hb : b < 0)
    (hf : ∀ i, i ≤ k → (f i).isSome) (hc : ∀ i, i < k → c i = false)
    (hck : c k = true) :
    ∀ (fuel i w : Nat) (last : Option E), i ≤ k → k - i < fuel →
      runWithRetryLoop tr b f c fuel i w last
        = RetryResult.done none (k + 1) (w + (k - i)) := by
  intro fuel
  induction fuel with
  | zero => intro i w last _ h; omega
  | succ fuel ih =>
    intro i w last hi hfuel
    obtain ⟨e, he⟩ := Option.isSome_iff_exists.mp (hf i hi)
    by_cases hik : i = k
    · subst hik
      simp only [runWithRetryLoop, Or.inl hb, if_pos, he, hck]
      congr 1
      omega
    · have hilt : i < k := lt_of_le_of_ne hi hik
      have step : runWithRetryLoop tr b f c (fuel + 1) i w last
          = runWithRetryLoop tr b f c fuel (i + 1) (w + 1) (some e) := by
        simp only [runWithRetryLoop, Or.inl hb, if_pos, he, hc i hilt, Bool.false_eq_true,
          if_neg, not_false_iff]
      rw [step, ih (i + 1) (w + 1) (some e) hilt (by omega)]
      congr 1
      omega

/-- C6: bounded-retry semantics of `RunWithRetry`.  With a bound
`N >= 0` and an always-failing operation it calls the operation exactly
`N` times and returns the (trace-wrapped) final value of the `err`
variable; with a negative bound it keeps retrying for any amount of
fuel until the operation succeeds or the context is cancelled, and
cancellation during the backoff wait returns `nil` rather than an
error. -/
theorem runWithRetry_bounded_semantics :
    (∀ (N fuel : Nat) (f : Nat → Option String) (c : Nat → Bool),
        (∀ i, (f i).isSome) → (∀ i, c i = false) → N < fuel →
        RunWithRetry traceErr (N : Int) f c fuel
          = RetryResult.done (Option.map traceErr (lastErrVar f N)) N N)
  ∧ (∀ (fuel : Nat) (b : Int) (f : Nat → Option String) (c : Nat → Bool),
        b < 0 → (∀ i, (f i).isSome) → (∀ i, c i = false) →
        RunWithRetry traceErr b f c fuel = RetryResult.running fuel fuel)
  ∧ (∀ (k fuel : Nat) (b : Int) (f : Nat → Option String) (c : Nat → Bool),
        b < 0 → (∀ i, i < k → (f i).isSome) → f k = none → (∀ i, i < k → c i = false) →
        k < fuel →
        RunWithRetry traceErr b f c fuel = RetryResult.done none (k + 1) k)
  ∧ (∀ (k fuel : Nat) (b : Int) (f : Nat → Option String) (c : Nat → Bool),
        b < 0 → (∀ i, i ≤ k → (f i).isSome) → (∀ i, i < k → c i = false) → c k = true →
        k < fuel →
        RunWithRetry traceErr b f c fuel = RetryResult.done none (k + 1) k) := by
  refine ⟨?_, ?_, ?_, ?_⟩
  · intro N fuel f c hf hc hfuel
    unfold RunWithRetry lastErrVar
    rw [runWithRetryLoop_bounded_fail traceErr N f c hf hc fuel 0 0 none (Nat.zero_le N)
      (by omega)]
    by_cases hN : N = 0
    · subst hN; simp
    · rw [if_neg (by omega : ¬(0 : Nat) = N), if_neg hN]
      congr 1
      omega
  · intro fuel b f c hb hf hc
    unfold RunWithRetry
    rw [runWithRetryLoop_neg_fail traceErr b f c hb hf hc fuel 0 0 none]
    congr 1 <;> omega
  · intro k fuel b f c hb hf hk hc hfuel
    unfold RunWithRetry
    rw [runWithRetryLoop_success_at traceErr b f c k hb hf hk hc fuel 0 0 none
      (Nat.zero_le k) (by omega)]
    congr 1
    omega
  · intro k fuel b f c hb hf hc hck hfuel
    unfold RunWithRetry
    rw [runWithRetryLoop_cancelled_at traceErr b f c k hb hf hc hck fuel 0 0 none
      (Nat.zero_le k) (by omega)]
    congr 1
    omega

/-- Witness for C6: a bound of 2 with an always-failing operation makes
exactly 2 calls and returns the trace of the last error; a cancelled
backoff under a negative bound returns `nil` after one call. -/
theorem runWithRetry_bounded_semantics_witness :
    RunWithRetry traceErr ((2 : Nat) : Int) (fun _ => some "boom") (fun _ => false) 3
        = RetryResult.done (some "trace: boom") 2 2
      ∧ RunWithRetry traceErr (-1) (fun _ => some "boom") (fun _ => true) 3
        = RetryResult.done none 1 0 := by
  constructor
  · have h := runWithRetry_bounded_semantics.1 2 3 (fun _ => some "boom") (fun _ => false)
      (fun i => rfl) (fun i => rfl) (by omega)
    simpa [lastErrVar, traceErr] using h
  · have h := runWithRetry_bounded_semantics.2.2.2 0 3 (-1) (fun _ => some "boom")
      (fun _ => true) (by omega) (fun i _ => rfl) (fun i hi => absurd hi (by omega)) rfl
      (by omega)
    simpa using h

/-- C7: a seeding insert that fails with a duplicate-key error makes the
wrapped operation return `nil`, so `RunWithRetry` returns success after
a single call with no backoff wait, for every retry bound that allows an
attempt and every trace wrapper. -/
theorem seeding_dup_entry_absorbed (execRes : Nat → Option SQLError)
    (tr : SQLError → SQLError) (retryCnt : Int) (c : Nat → Bool) (fuel : Nat)
    (hdup : execRes 0 = some SQLError.dupEntry)
    (hcnt : retryCnt < 0 ∨ 1 ≤ retryCnt) (hfuel : 1 ≤ fuel) :
    RunWithRetry tr retryCnt (insertF execRes) c fuel = RetryResult.done none 1 0 := by
  obtain ⟨fuel', rfl⟩ : ∃ fuel', fuel = fuel' + 1 := ⟨fuel - 1, by omega⟩
  have hcond : retryCnt < 0 ∨ ((0 : Nat) : Int) < retryCnt := by
    rcases hcnt with h | h
    · exact Or.inl h
    · exact Or.inr (by exact_mod_cast h)
  have hins : insertF execRes 0 = none := by
    simp [insertF, hdup, IsErrDupEntry]
  unfold RunWithRetry runWithRetryLoop
  rw [if_pos hcond, hins]

/-- Witness for C7: a duplicate-entry failure on the first attempt under
the default retry bound of 200 returns immediate success. -/
theorem seeding_dup_entry_absorbed_witness :
    RunWithRetry id 200 (insertF (fun _ => some SQLError.dupEntry)) (fun _ => false) 200
      = RetryResult.done none 1 0 :=
  seeding_dup_entry_absorbed (fun _ => some SQLError.dupEntry) id 200 (fun _ => false) 200
    rfl (by omega) (by omega)

/-- C8, counterexample: a transfer with the drawn amount 0 (which is in
`[0, 999)`) inserts an audit record even though no money moves — both
balances stay at 1000 — refuting that a record row is created only when
a positive amount is debited. -/
theorem execTransaction_zero_amount_audit_row :
    (execTransaction 3 7 0 1000 1000 42 none).record
        = some { from_id := 3, to_id := 7, from_balance := 1000,
                 to_balance := 1000, amount := 0, tso := 42 }
      ∧ (execTransaction 3 7 0 1000 1000 42 none).fromBalance' = 1000
      ∧ (execTransaction 3 7 0 1000 1000 42 none).toBalance' = 1000 := by
  refine ⟨by decide, by decide, by decide⟩

/-- C8, amended: an audit row is inserted exactly when the pre-transfer
`fromBalance` is at least the drawn amount; since the amount may be 0, a
row can record a transfer that moves no money. -/
theorem execTransaction_record_iff_funds (fromId toId : Nat)
    (amount fromBalance toBalance : Int) (tso : Nat) (commitRes : Option String) :
    (execTransaction fromId toId amount fromBalance toBalance tso commitRes).record.isSome
        = true
      ↔ amount ≤ fromBalance := by
  by_cases h : amount ≤ fromBalance <;> simp [execTransaction, h]

/-- C9, counterexample: a failing comparison (sum 999 against the
required 1000) sets the `stopped` flag and aborts on the spot even
though no time has elapsed since the last success, refuting that a
failing comparison is non-fatal within the six-hour window. -/
theorem verifyTick_mismatch_immediately_fatal :
    (verifyTick 1 { start := 0, stopped := false } 0 (some 999)).1.stopped = true
      ∧ (verifyTick 1 { start := 0, stopped := false } 0 (some 999)).2 = true
      ∧ (0 - 0 : Nat) ≤ defaultVerifyTimeout := by
  refine ⟨by decide, by decide, by decide⟩

/-- C9, amended: in the fast cadence a verification attempt that returns
an error (a failed sum query) is reported but not fatal unless more than
six hours have elapsed since the last success, at which point it is
fatal regardless; a sum mismatch is immediately fatal inside
`verifyWithConn`; a successful verification resets the last-success
marker. -/
theorem verifyTick_watchdog (numAccounts : Nat) (st : WatchdogState) (now : Nat) :
    (∀ total : Int, total = (numAccounts : Int) * 1000 →
        verifyTick numAccounts st now (some total) = ({ st with start := now }, false))
  ∧ (now - st.start ≤ defaultVerifyTimeout →
        verifyTick numAccounts st now none = (st, false))
  ∧ (now - st.start > defaultVerifyTimeout →
        verifyTick numAccounts st now none = ({ st with stopped := true }, true))
  ∧ (∀ total : Int, total ≠ (numAccounts : Int) * 1000 →
        verifyTick numAccounts st now (some total)
          = ({ st with stopped := true }, true)) := by
  refine ⟨?_, ?_, ?_, ?_⟩
  · intro total htotal
    simp [verifyTick, verifyWithConn, htotal]
  · intro helapsed
    simp [verifyTick, verifyWithConn, not_lt.mpr helapsed]
  · intro helapsed
    simp [verifyTick, verifyWithConn, helapsed]
  · intro total htotal
    simp [verifyTick, verifyWithConn, htotal]

/-- Witness for C9 (amended): success resets the marker, an in-window
error is non-fatal, a past-window error is fatal, a mismatch is fatal at
once. -/
theorem verifyTick_watchdog_witness :
    verifyTick 1 { start := 0, stopped := false } 5 (some 1000)
        = ({ start := 5, stopped := false }, false)
      ∧ verifyTick 1 { start := 0, stopped := false } 5 none
        = ({ start := 0, stopped := false }, false)
      ∧ verifyTick 1 { start := 0, stopped := false } 21600000000001 none
        = ({ start := 0, stopped := true }, true)
      ∧ verifyTick 1 { start := 0, stopped := false } 5 (some 7)
        = ({ start := 0, stopped := true }, true) := by
  refine ⟨?_, ?_, ?_, ?_⟩
  · exact (verifyTick_watchdog 1 { start := 0, stopped := false } 5).1 1000 (by norm_num)
  · exact (verifyTick_watchdog 1 { start := 0, stopped := false } 5).2.1 (by decide)
  · exact (verifyTick_watchdog 1 { start := 0, stopped := false } 21600000000001).2.2.1
      (by decide)
  · exact (verifyTick_watchdog 1 { start := 0, stopped := false } 5).2.2.2 7 (by norm_num)

/-- Helper: one transfer with a nonnegative amount keeps every balance
nonnegative — the mutating branch runs only when the sender covers the
amount, and the receiver's balance only grows. -/
theorem applyTransfer_nonneg (bal : Nat → Int) (f t : Nat) (a : Int)
    (hb : ∀ id, 0 ≤ bal id) (ha : 0 ≤ a) :
    ∀ id, 0 ≤ applyTransfer bal f t a id := by
  intro id
  unfold applyTransfer execTransaction
  by_cases hc : bal f ≥ a
  · rw [if_pos hc]
    by_cases h1 : id = t
    · rw [if_pos h1]
      have := hb t
      simp only
      linarith
    · rw [if_neg h1]
      by_cases h2 : id = f
      · rw [if_pos h2]
        simp only
        linarith
      · rw [if_neg h2]
        exact hb id
  · rw [if_neg hc]
    by_cases h1 : id = t
    · rw [if_pos h1]
      exact hb t
    · rw [if_neg h1]
      by_cases h2 : id = f
      · rw [if_pos h2]
        exact hb f
      · rw [if_neg h2]
        exact hb id

/-- Helper: serially executed transfers with nonnegative amounts keep
every balance nonnegative. -/
theorem execTransfers_nonneg (ts : List (Nat × Nat × Int)) :
    ∀ (bal : Nat → Int), (∀ id, 0 ≤ bal id) → (∀ x ∈ ts, 0 ≤ x.2.2) →
      ∀ id, 0 ≤ execTransfers bal ts id := by
  induction ts with
  | nil => intro bal hb _ id; exact hb id
  | cons x rest ih =>
    intro bal hb hamt id
    obtain ⟨f, t, a⟩ := x
    have ha : 0 ≤ a := hamt (f, t, a) (List.mem_cons_self _ _)
    exact ih (applyTransfer bal f t a) (applyTransfer_nonneg bal f t a hb ha)
      (fun y hy => hamt y (List.mem_cons_of_mem _ hy)) id

/-- C10: starting from the seeded state (every balance 1000) and
executing transfers serially, with every drawn amount nonnegative and
distinct sender and receiver, every account balance stays nonnegative
after every transfer. -/
theorem transfers_from_seed_nonneg (ts : List (Nat × Nat × Int))
    (hamt : ∀ x ∈ ts, 0 ≤ x.2.2) (hne : ∀ x ∈ ts, x.1 ≠ x.2.1) :
    ∀ id, 0 ≤ execTransfers (fun _ => 1000) ts id :=
  execTransfers_nonneg ts (fun _ => 1000) (fun _ => by norm_num) hamt

/-- Witness for C10 on a concrete transfer list, including one
underfunded transfer. -/
theorem transfers_from_seed_nonneg_witness :
    0 ≤ execTransfers (fun _ => 1000) [(0, 1, 900), (0, 1, 900), (1, 2, 3)] 0 :=
  transfers_from_seed_nonneg [(0, 1, 900), (0, 1, 900), (1, 2, 3)]
    (by decide) (by decide) 0

end Bank
